import Mathlib

/-!
# Verification of the Farsroid update-tracker pipeline

Shallow embedding of `scripts/app_updater.py` (the extraction-and-tracking
pipeline): version extraction, name canonicalization, variant classification,
file-type resolution, tracking-key derivation, version comparison and the
page-scraping orchestrator, together with theorems settling the frozen
claims about the specification.

All text processing is carried out on `List Char`, matching Python's
per-character (code point) string model.  The Python `re` calls are embedded
through a small backtracking regular-expression engine (`RE` / `reMatch`)
whose alternation/greediness ordering follows Python's leftmost,
preference-order semantics; each concrete pattern of the source is
transcribed into an `RE` value below.
-/

namespace AppUpdater

/-! ## Character classes (Python `re` semantics, restricted to the
alphabets that occur in the source's data: ASCII plus the Arabic block
used by the Persian keywords). -/

/-- Python `\d` (ASCII digits; the source never feeds non-ASCII digits). -/
def isDigitC (c : Char) : Bool := 48 ≤ c.toNat && c.toNat ≤ 57

/-- Python `[a-zA-Z0-9]`. -/
def isAlnumC (c : Char) : Bool :=
  ('a' ≤ c && c ≤ 'z') || ('A' ≤ c && c ≤ 'Z') || isDigitC c

/-- Python `\w` (word character).  Modelled as ASCII alphanumerics,
underscore, and the Arabic Unicode block (U+0600–U+06FF) which covers the
Persian letters appearing in the source's keyword tables.  Python's `\w` is
all Unicode word characters; only these ranges occur in the repository's
data. -/
def isWordC (c : Char) : Bool :=
  isAlnumC c || c = '_' || (0x0600 ≤ c.val && c.val ≤ 0x06FF)

/-- Python `\s` (whitespace). -/
def isSpaceC (c : Char) : Bool :=
  c = ' ' || c = '\t' || c = '\n' || c = '\r' || c = '\x0b' || c = '\x0c'

/-- Python `str.lower` restricted to the cased characters that occur here
(ASCII letters; Persian has no case). -/
def lowerC (c : Char) : Char :=
  if 'A' ≤ c && c ≤ 'Z' then Char.ofNat (c.toNat + 32) else c

def lowerL (l : List Char) : List Char := l.map lowerC

/-! ## Python string primitives on `List Char` -/

/-- Python `str.strip(chars)`: remove the given characters from both ends. -/
def stripChars (bad : List Char) (l : List Char) : List Char :=
  ((l.dropWhile (· ∈ bad)).reverse.dropWhile (· ∈ bad)).reverse

/-- Python `str.strip()` (no argument): strip whitespace from both ends. -/
def stripWs (l : List Char) : List Char :=
  ((l.dropWhile (isSpaceC ·)).reverse.dropWhile (isSpaceC ·)).reverse

/-- `List.isPrefixOf` by decidable equality, as a Bool. -/
def isPrefixL : List Char → List Char → Bool
  | [], _ => true
  | _ :: _, [] => false
  | a :: as, b :: bs => a = b && isPrefixL as bs

/-- Substring containment (Python `in` on strings). -/
def containsSub (needle hay : List Char) : Bool :=
  match hay with
  | [] => isPrefixL needle []
  | _ :: rest => isPrefixL needle hay || containsSub needle rest

/-- Python `str.endswith`. -/
def endsWithL (l suffix : List Char) : Bool :=
  isPrefixL suffix.reverse l.reverse

/-- Python `str.replace(old, new)` (all occurrences, left to right);
every use in the source has a non-empty `old`.  When a match is found at
the head, the head character plus `old.length - 1` further characters are
consumed.  Structural recursion on a fuel that bounds the number of
scanning steps (each step consumes at least one character, so the
caller's `length + 1` always suffices). -/
def replaceAllF (old new : List Char) : Nat → List Char → List Char
  | 0, l => l
  | _ + 1, [] => []
  | fuel + 1, c :: rest =>
    if old ≠ [] && isPrefixL old (c :: rest) then
      new ++ replaceAllF old new fuel (rest.drop (old.length - 1))
    else
      c :: replaceAllF old new fuel rest

def replaceAll (old new l : List Char) : List Char :=
  replaceAllF old new (l.length + 1) l

/-- Python `re.sub(r'\s+', ' ', s)`: collapse whitespace runs to a single
space.  The flag records whether we are inside a whitespace run that has
already emitted its single space. -/
def collapseWsAux : Bool → List Char → List Char
  | _, [] => []
  | inRun, c :: rest =>
    if isSpaceC c then
      if inRun then collapseWsAux true rest
      else ' ' :: collapseWsAux true rest
    else c :: collapseWsAux false rest

def collapseWs (l : List Char) : List Char := collapseWsAux false l

/-- Python `str.split()` (whitespace split, empty tokens dropped).
`acc` is the current token accumulated in reverse. -/
def splitWsAux : List Char → List Char → List (List Char)
  | acc, [] => if acc = [] then [] else [acc.reverse]
  | acc, c :: rest =>
    if isSpaceC c then
      if acc = [] then splitWsAux [] rest
      else acc.reverse :: splitWsAux [] rest
    else
      splitWsAux (c :: acc) rest

def splitWs (l : List Char) : List (List Char) := splitWsAux [] l

mutual

/-- Python `re.split(r'[-_]+', s)` as used at line 202 of the source:
split on runs of `-`/`_` (the caller drops empty pieces). -/
def splitDUAux : List Char → List Char → List (List Char)
  | acc, [] => [acc.reverse]
  | acc, c :: rest =>
    if c = '-' || c = '_' then acc.reverse :: splitDUSkip rest
    else splitDUAux (c :: acc) rest

def splitDUSkip : List Char → List (List Char)
  | [] => [[]]
  | c :: rest =>
    if c = '-' || c = '_' then splitDUSkip rest
    else splitDUAux [c] rest

end

def splitDashUnderscore (l : List Char) : List (List Char) := splitDUAux [] l

/-! ## A small backtracking regular-expression engine

Exactly the constructs used by the source's patterns: character classes,
concatenation, prioritized alternation, greedy and lazy star, `\b`,
single-character negative lookbehind/lookahead, and `$`.  `reMatch` is a
CPS backtracking matcher following Python's preference order (in `alt` the
left branch is preferred; `star` is greedy, `starL` lazy).  `fuel` bounds
the recursion depth of a single backtracking path; all patterns below
have star-bodies that consume at least one character, so a fuel linear in
pattern size times input length suffices (the drivers supply a generous
bound). -/

inductive RE where
  | eps
  | cls (p : Char → Bool)
  | seq (a b : RE)
  | alt (a b : RE)
  | star (a : RE)
  | starL (a : RE)
  | wordB
  | notBehind (p : Char → Bool)
  | notAhead (p : Char → Bool)
  | eos

namespace RE

def opt (a : RE) : RE := .alt a .eps

def plus (a : RE) : RE := .seq a (.star a)

/-- `{1,2}` (greedy). -/
def rep12 (a : RE) : RE := .seq a (opt a)

/-- `{1,3}` (greedy). -/
def rep13 (a : RE) : RE := .seq a (opt (.seq a (opt a)))

/-- `{0,2}` (greedy). -/
def rep02 (a : RE) : RE := opt (.seq a (opt a))

/-- Case-sensitive literal. -/
def lit (s : List Char) : RE :=
  s.foldr (fun c r => .seq (.cls (fun d => d = c)) r) .eps

/-- Case-insensitive literal (re.IGNORECASE). -/
def litCI (s : List Char) : RE :=
  s.foldr (fun c r => .seq (.cls (fun d => lowerC d = lowerC c)) r) .eps

/-- Alternation of a non-empty list, left-preferred. -/
def alts : List RE → RE
  | [] => .cls (fun _ => false)
  | [r] => r
  | r :: rs => .alt r (alts rs)

end RE

/-- The CPS backtracking matcher.  `prev` is the character immediately
before the current position (`none` at the start of the haystack), needed
for `\b` and lookbehind.  The continuation `k` receives the new `prev` and
the remaining input; the first continuation success (in preference order)
is returned. -/
def reMatch : Nat → RE → Option Char → List Char →
    (Option Char → List Char → Option (List Char)) → Option (List Char)
  | 0, _, _, _, _ => none
  | _ + 1, .eps, prev, cs, k => k prev cs
  | _ + 1, .cls p, prev, cs, k =>
    match cs with
    | [] => none
    | c :: rest => if p c then k (some c) rest else (fun _ => none) prev
  | fuel + 1, .seq a b, prev, cs, k =>
    reMatch fuel a prev cs (fun p' cs' => reMatch fuel b p' cs' k)
  | fuel + 1, .alt a b, prev, cs, k =>
    match reMatch fuel a prev cs k with
    | some res => some res
    | none => reMatch fuel b prev cs k
  | fuel + 1, .star a, prev, cs, k =>
    match reMatch fuel a prev cs (fun p' cs' => reMatch fuel (.star a) p' cs' k) with
    | some res => some res
    | none => k prev cs
  | fuel + 1, .starL a, prev, cs, k =>
    match k prev cs with
    | some res => some res
    | none => reMatch fuel a prev cs (fun p' cs' => reMatch fuel (.starL a) p' cs' k)
  | _ + 1, .wordB, prev, cs, k =>
    let pw := match prev with | none => false | some c => isWordC c
    let nw := match cs with | [] => false | c :: _ => isWordC c
    if pw ≠ nw then k prev cs else none
  | _ + 1, .notBehind p, prev, cs, k =>
    match prev with
    | none => k prev cs
    | some c => if p c then none else k prev cs
  | _ + 1, .notAhead p, prev, cs, k =>
    match cs with
    | [] => k prev cs
    | c :: _ => if p c then none else k prev cs
  | _ + 1, .eos, prev, cs, k =>
    match cs with
    | [] => k prev cs
    | _ :: _ => none

/-- Size of a pattern, used only to compute a sufficient fuel bound. -/
def reSize : RE → Nat
  | .eps => 1
  | .cls _ => 1
  | .seq a b => reSize a + reSize b + 1
  | .alt a b => reSize a + reSize b + 1
  | .star a => reSize a + 1
  | .starL a => reSize a + 1
  | .wordB => 1
  | .notBehind _ => 1
  | .notAhead _ => 1
  | .eos => 1

/-- Fuel that is ample for every pattern/input pair arising here: each
backtracking path unfolds at most `reSize` constructors between character
consumptions and every star body consumes. -/
def fuelFor (r : RE) (cs : List Char) : Nat :=
  (reSize r + 2) * (cs.length + 2) + 8

/-- Try to match `r` at the very start of `cs` (with `prev` the character
before it); return the number of characters consumed by the
preferred match. -/
def reMatchAtPos (r : RE) (prev : Option Char) (cs : List Char) : Option Nat :=
  match reMatch (fuelFor r cs) r prev cs (fun _ rest => some rest) with
  | some rest => some (cs.length - rest.length)
  | none => none

/-- `re.search` semantics: scan positions left to right, return
`(before, matched, after)` for the first position where `r` matches
(preferred match there).  `accRev` holds the scanned-over prefix in
reverse. -/
def reSearchAux (r : RE) : Option Char → List Char → List Char →
    Option (List Char × List Char × List Char)
  | prev, cs, accRev =>
    match reMatchAtPos r prev cs with
    | some n => some (accRev.reverse, cs.take n, cs.drop n)
    | none =>
      match cs with
      | [] => none
      | c :: rest => reSearchAux r (some c) rest (c :: accRev)

def reSearch (r : RE) (cs : List Char) :
    Option (List Char × List Char × List Char) :=
  reSearchAux r none cs []

/-- `re.sub(r, '', s)` for the non-empty-match patterns used in the
source: delete every non-overlapping match, scanning left to right.  If a
(degenerate) empty match occurs the character is kept and scanning
advances, so every step consumes at least one character and the caller's
`length + 1` fuel always suffices. -/
def reSubEmptyF (r : RE) : Nat → Option Char → List Char → List Char
  | 0, _, cs => cs
  | _ + 1, _, [] => []
  | fuel + 1, prev, c :: rest =>
    match reMatchAtPos r prev (c :: rest) with
    | some 0 => c :: reSubEmptyF r fuel (some c) rest
    | some (n + 1) =>
      reSubEmptyF r fuel (some (((c :: rest).take (n + 1)).getLastD c))
        ((c :: rest).drop (n + 1))
    | none => c :: reSubEmptyF r fuel (some c) rest

def reSubEmpty (r : RE) (prev : Option Char) (cs : List Char) : List Char :=
  reSubEmptyF r (cs.length + 1) prev cs

/-- Whether `r` matches somewhere in `cs` (`re.search` as a test). -/
def reTest (r : RE) (cs : List Char) : Bool :=
  (reSearch r cs).isSome

/-! ## The source's regex patterns -/

/-- `\d+` -/
def reDigits : RE := RE.plus (.cls isDigitC)

/-- `[vV]` -/
def reVee : RE := .cls (fun c => c = 'v' || c = 'V')

/-- `\.\d+` -/
def reDotDigits : RE := .seq (.cls (fun c => c = '.')) reDigits

/-- `(?:[-._]?[a-zA-Z0-9]+)` — one suffix token of the rich version
pattern. -/
def reSuffixTok : RE :=
  .seq (RE.opt (.cls (fun c => c = '-' || c = '.' || c = '_'))) (RE.plus (.cls isAlnumC))

/-- The class `[\w.-]` of the negative lookbehind in
`VERSION_REGEX_PATTERNS`. -/
def isWordDotDash (c : Char) : Bool := isWordC c || c = '.' || c = '-'

/-- The class `[.\w]` of the negative lookahead in
`VERSION_REGEX_PATTERNS`. -/
def isDotWord (c : Char) : Bool := c = '.' || isWordC c

/-- Core of `VERSION_REGEX_PATTERNS[0]` between the lookarounds:
`(?:[vV])?(\d+(?:\.\d+){1,3}(?:(?:[-._]?[a-zA-Z0-9]+)+)?)`. -/
def reVer1Core : RE :=
  .seq (RE.opt reVee)
    (.seq reDigits (.seq (RE.rep13 reDotDigits) (RE.opt (RE.plus reSuffixTok))))

/-- `VERSION_REGEX_PATTERNS[0]`:
`(?<![\w.-])(?:[vV])?(\d+(?:\.\d+){1,3}(?:(?:[-._]?[a-zA-Z0-9]+)+)?)(?![.\w])`. -/
def reVersionRich : RE :=
  .seq (.notBehind isWordDotDash) (.seq reVer1Core (.notAhead isDotWord))

/-- Core of `VERSION_REGEX_PATTERNS[1]` between the lookarounds:
`(?:[vV])?(\d+(?:\.\d+){1,2})`. -/
def reVer2Core : RE :=
  .seq (RE.opt reVee) (.seq reDigits (RE.rep12 reDotDigits))

/-- `VERSION_REGEX_PATTERNS[1]`:
`(?<![\w.-])(?:[vV])?(\d+(?:\.\d+){1,2})(?![.\w])`. -/
def reVersionLoose : RE :=
  .seq (.notBehind isWordDotDash) (.seq reVer2Core (.notAhead isDotWord))

/-- The fallback pattern of `extract_version_from_text_or_url`:
`(\d+\.\d+(?:\.\d+){0,2}(?:[.-]?[a-zA-Z0-9]+)*)` — note: no boundary
guards, and the suffix-token separator class here is `[.-]` (no
underscore). -/
def reVersionFallback : RE :=
  .seq reDigits (.seq reDotDigits (.seq (RE.rep02 reDotDigits)
    (RE.star (.seq (RE.opt (.cls (fun c => c = '.' || c = '-'))) (RE.plus (.cls isAlnumC))))))

/-- `VERSION_PATTERNS_FOR_CLEANING[0]`:
`\s*[vV]?\d+(?:\.\d+){1,3}(?:(?:[-._]?[a-zA-Z0-9]+)+)?\b`. -/
def reClean1 : RE :=
  .seq (RE.star (.cls isSpaceC))
    (.seq (RE.opt reVee)
      (.seq reDigits (.seq (RE.rep13 reDotDigits)
        (.seq (RE.opt (RE.plus reSuffixTok)) .wordB))))

/-- `VERSION_PATTERNS_FOR_CLEANING[1]`: `\s*[vV]?\d+(?:\.\d+){1,2}\b`. -/
def reClean2 : RE :=
  .seq (RE.star (.cls isSpaceC))
    (.seq (RE.opt reVee) (.seq reDigits (.seq (RE.rep12 reDotDigits) .wordB)))

/-- `VERSION_PATTERNS_FOR_CLEANING[2]`: `\s+\d+(?:\.\d+)*\b`. -/
def reClean3 : RE :=
  .seq (RE.plus (.cls isSpaceC))
    (.seq reDigits (.seq (RE.star reDotDigits) .wordB))

def versionPatternsForCleaning : List RE := [reClean1, reClean2, reClean3]

/-- A pattern anchored to the end of the string (the source's
`re.sub(pattern + r'$', …)` at line 176). -/
def anchored (r : RE) : RE := .seq r .eos

/-- `\s*\((?:www\.)?farsroid\.com.*?\)\s*$` (lines 142, 174).
IGNORECASE on the literal parts. -/
def reFarsroidParenEnd : RE :=
  .seq (RE.star (.cls isSpaceC))
    (.seq (.cls (fun c => c = '('))
      (.seq (RE.opt (RE.litCI "www.".toList))
        (.seq (RE.litCI "farsroid.com".toList)
          (.seq (RE.starL (.cls (fun _ => true)))
            (.seq (.cls (fun c => c = ')'))
              (.seq (RE.star (.cls isSpaceC)) .eos))))))

/-- `\s*\((?:www\.)?farsroid\.com.*?\)\s*` (line 415, not anchored). -/
def reFarsroidParen : RE :=
  .seq (RE.star (.cls isSpaceC))
    (.seq (.cls (fun c => c = '('))
      (.seq (RE.opt (RE.litCI "www.".toList))
        (.seq (RE.litCI "farsroid.com".toList)
          (.seq (RE.starL (.cls (fun _ => true)))
            (.seq (.cls (fun c => c = ')'))
              (RE.star (.cls isSpaceC)))))))

/-- `\s*[-–—]\s*Farsroid\s*$` (line 143). -/
def reDashFarsroidEnd : RE :=
  .seq (RE.star (.cls isSpaceC))
    (.seq (.cls (fun c => c = '-' || c = '–' || c = '—'))
      (.seq (RE.star (.cls isSpaceC))
        (.seq (RE.litCI "Farsroid".toList)
          (.seq (RE.star (.cls isSpaceC)) .eos))))

/-- `\b…\b` around a case-insensitive literal (the keyword patterns
`r'\b' + re.escape(kw) + r'\b'`; all keywords consist of literal
characters, so `re.escape` is the identity on them). -/
def reWordKw (kw : List Char) : RE :=
  .seq .wordB (.seq (RE.litCI kw) .wordB)

/-! ## `extract_version_from_text_or_url` (lines 249–266) -/

/-- Strip of `"-_ "` applied to every extracted version
(`match.group(1).strip("-_ ")`). -/
def stripVerChars (l : List Char) : List Char := stripChars ['-', '_', ' '] l

/-- Group 1 of the two primary patterns excludes the optional leading
`v`/`V`; the matched text starts with it exactly when the regex consumed
it (group 1 always starts with a digit). -/
def dropLeadingVee : List Char → List Char
  | 'v' :: rest => rest
  | 'V' :: rest => rest
  | l => l

/-- Run one primary pattern as `re.search`, returning group 1 stripped as
the source does. -/
def searchPrimary (r : RE) (cs : List Char) : Option (List Char) :=
  match reSearch r cs with
  | some (_, m, _) => some (stripVerChars (dropLeadingVee m))
  | none => none

/-- Run the fallback pattern (its group 1 is the whole match). -/
def searchFallback (cs : List Char) : Option (List Char) :=
  match reSearch reVersionFallback cs with
  | some (_, m, _) => some (stripVerChars m)
  | none => none

/-- `extract_version_from_text_or_url(text_content, url_content)`
(lines 249–266).  Python's `if text_content:` / `if url_content:` are
empty-string tests. -/
def extract_version_from_text_or_url (text url : List Char) : Option (List Char) :=
  let tryPats (cs : List Char) : Option (List Char) :=
    match searchPrimary reVersionRich cs with
    | some v => some v
    | none => searchPrimary reVersionLoose cs
  match (if text ≠ [] then tryPats text else none) with
  | some v => some v
  | none =>
    match (if url ≠ [] then tryPats url else none) with
    | some v => some v
    | none =>
      match (if text ≠ [] then searchFallback text else none) with
      | some v => some v
      | none => if url ≠ [] then searchFallback url else none

/-! ## `sanitize_text_for_tracking_id` (lines 111–118) -/

/-- `re.sub(r'[-_]+', '_', s)`: collapse runs of `-`/`_` to one `_`. -/
def collapseDashUnderscore : List Char → List Char
  | [] => []
  | c :: rest =>
    if c = '-' || c = '_' then
      match rest with
      | d :: _ =>
        if d = '-' || d = '_' then collapseDashUnderscore rest
        else '_' :: collapseDashUnderscore rest
      | [] => ['_']
    else c :: collapseDashUnderscore rest

/-- `sanitize_text_for_tracking_id(text)` (lines 111–118). -/
def sanitize_text_for_tracking_id (text : List Char) : List Char :=
  if text = [] then []
  else
    let t := lowerL (stripWs text)
    let t := replaceAll ['–'] ['-'] t
    let t := replaceAll ['—'] ['-'] t
    let t := t.filter (fun c => ('a' ≤ c && c ≤ 'z') || isDigitC c || c = '-' || c = '_')
    let t := collapseDashUnderscore t
    stripChars ['_'] t

/-! ## `compare_versions` (lines 86–109)

The source parses with `packaging.version.parse` and catches
`InvalidVersion`.  We model the subset of PEP 440 the tracker's data
exercises: an optional surrounding-whitespace trim, an optional `v`/`V`
prefix, then dot-separated numeral groups.  Any other string is treated as
raising `InvalidVersion` (and hence as taking the source's
string-comparison fallback). -/

/-- Numeral group to `Nat` (the group is known to be non-empty and all
digits when used). -/
def digitsToNat (l : List Char) : Nat :=
  l.foldl (fun acc c => 10 * acc + (c.toNat - 48)) 0

/-- Split on `'.'` keeping empty groups (Python `str.split('.')`). -/
def splitDots : List Char → List Char → List (List Char)
  | acc, [] => [acc.reverse]
  | acc, c :: rest =>
    if c = '.' then acc.reverse :: splitDots [] rest
    else splitDots (c :: acc) rest

/-- Modelled from the source's use of `packaging.version.parse`: accept
`v?N(.N)*` (with surrounding whitespace), reject everything else as
`InvalidVersion`. -/
def parseVersion (s : List Char) : Option (List Nat) :=
  let t := stripWs s
  let t := match t with
    | 'v' :: rest => rest
    | 'V' :: rest => rest
    | _ => t
  if t = [] then none
  else
    let groups := splitDots [] t
    if groups.all (fun g => g ≠ [] && g.all (isDigitC ·)) then
      some (groups.map digitsToNat)
    else none

/-- PEP 440 release-segment comparison: compare componentwise, padding
the shorter tuple with zeros. -/
def releaseLt : List Nat → List Nat → Bool
  | [], bs => bs.any (0 < ·)
  | a :: as, [] => if 0 < a then false else releaseLt as []
  | a :: as, b :: bs =>
    if a < b then true else if b < a then false else releaseLt as bs

/-- Python string `<` is code-point lexicographic, the same as `List.lt`
on `Char`. -/
def pyStrLt (a b : List Char) : Bool := decide (a < b)

/-- The string-comparison fallback `current != last and current > last`
(lines 100, 103, 106, 109). -/
def lexFallback (current last : List Char) : Bool :=
  decide (current ≠ last) && pyStrLt last current

/-- `compare_versions(current_v_str, last_v_str)` (lines 86–109). -/
def compare_versions (current last : List Char) : Bool :=
  if current = [] then false
  else if last = [] ∨ last = "0.0.0".toList then true
  else
    match parseVersion current, parseVersion last with
    | some pc, some pl =>
      if releaseLt pl pc then true
      else if releaseLt pc pl then false
      else lexFallback current last
    | _, _ => lexFallback current last

/-! ## `aggressively_clean_name_for_tracking` (lines 121–149) -/

/-- `COMMON_VARIANT_KEYWORDS_TO_DETECT_AND_CLEAN` (lines 38–71). -/
def commonVariantKeywords : List (List Char) :=
  ["Mod-Extra".toList, "مود اکسترا".toList, "موداکسترا".toList,
   "Mod-Lite".toList, "مود لایت".toList, "مودلایت".toList,
   "Ad-Free".toList, "بدون تبلیغات".toList,
   "Unlocked".toList, "آنلاک شده".toList, "آنلاک".toList,
   "Patched".toList, "پچ شده".toList,
   "Premium".toList, "پرمیوم".toList,
   "Persian".toList, "فارسی".toList,
   "English".toList, "انگلیسی".toList,
   "Universal".toList, "یونیورسال".toList,
   "Original".toList, "اورجینال".toList, "اصلی".toList, "معمولی".toList,
   "Arm64-v8a".toList, "Armeabi-v7a".toList, "x86_64".toList,
   "Arm64".toList, "Armv7".toList, "Arm".toList, "x86".toList,
   "Windows".toList, "ویندوز".toList, "PC".toList, "کامپیوتر".toList,
   "macOS".toList, "Mac".toList, "OSX".toList,
   "Linux".toList, "لینوکس".toList,
   "Ultra".toList, "اولترا".toList,
   "Clone".toList, "کلون".toList,
   "Beta".toList, "بتا".toList,
   "Full".toList, "کامل".toList,
   "Lite".toList, "لایت".toList,
   "Main".toList,
   "Data".toList, "دیتا".toList, "Obb".toList,
   "Mod".toList, "مود".toList,
   "Pro".toList, "پرو".toList,
   "VIP".toList, "وی آی پی".toList,
   "Plus".toList, "پلاس".toList,
   "Image".toList, "تصویر".toList,
   "Audio".toList, "صوتی".toList,
   "Video".toList, "ویدیو".toList,
   "Document".toList, "سند".toList, "Text".toList, "متن".toList,
   "Archive".toList, "آرشیو".toList,
   "Font".toList, "فونت".toList]

/-- The extension of the keyword list made at lines 129–130. -/
def allKeywordsForAggressiveClean : List (List Char) :=
  commonVariantKeywords ++
    ["PC".toList, "کامپیوتر".toList, "ویندوز".toList, "Windows".toList,
     "Lite".toList, "لایت".toList, "Pro".toList, "پرو".toList]

/-- `sorted(list(set(all_keywords…)), key=len, reverse=True)` (line 132).
Python's set-iteration order is unspecified, so the relative order of
equal-length keywords is unspecified in the source; we model it as the
deduplicated declaration order, stably sorted by descending length. -/
def sortedKeywords : List (List Char) :=
  (allKeywordsForAggressiveClean.dedup).insertionSort
    (fun a b => b.length ≤ a.length)

/-- `.strip("-_ ")`. -/
def stripDashUnderscoreSpace (l : List Char) : List Char :=
  stripChars ['-', '_', ' '] l

/-- The body of the per-keyword `while` loop (lines 138–140): one
substitution of `\b kw \b` (IGNORECASE) followed by the two strip /
whitespace-collapse normalizations. -/
def keywordStripStep (kw : List Char) (name : List Char) : List Char :=
  stripDashUnderscoreSpace
    (collapseWs (stripDashUnderscoreSpace (reSubEmpty (reWordKw kw) none name)))

/-- Iterate `f` to a fixpoint (the source's `while prev_name !=
cleaned_name` loops, lines 136–140).  Every step of the loops modelled
here is length-non-increasing and stabilizes after at most one
non-shrinking application, so `x.length + 4` fuel reaches the fixpoint. -/
def iterFix : Nat → (List Char → List Char) → List Char → List Char
  | 0, _, x => x
  | fuel + 1, f, x =>
    let y := f x
    if y = x then x else iterFix fuel f y

/-- The version-pattern pass of the aggressive cleaner (lines 125–127). -/
def versionCleanPass (name : List Char) : List Char :=
  versionPatternsForCleaning.foldl
    (fun n pat =>
      stripDashUnderscoreSpace
        (collapseWs (stripDashUnderscoreSpace (reSubEmpty pat none n))))
    name

/-- The keyword pass of the aggressive cleaner (lines 129–140). -/
def keywordCleanPass (name : List Char) : List Char :=
  sortedKeywords.foldl
    (fun n kw => iterFix (n.length + 4) (keywordStripStep kw) n)
    name

/-- The site-credit pass and final normalization (lines 142–145). -/
def siteSuffixPass (name : List Char) : List Char :=
  let n := stripWs (reSubEmpty reFarsroidParenEnd none name)
  let n := stripWs (reSubEmpty reDashFarsroidEnd none n)
  let n := stripChars [' ', '-', '–', '—'] n
  stripWs (collapseWs n)

/-- `aggressively_clean_name_for_tracking(name_to_clean)`
(lines 121–149). -/
def aggressively_clean_name_for_tracking (nameToClean : List Char) : List Char :=
  let cleaned := siteSuffixPass (keywordCleanPass (versionCleanPass nameToClean))
  if cleaned = [] then
    match splitWs nameToClean with
    | [] => cleaned
    | w :: _ => w
  else cleaned

/-! ## Variant classification (lines 342–369) -/

/-- `variant_keywords_ordered` (lines 348–360): an insertion-ordered dict
mapping canonical tag to its bilingual surface forms. -/
def variantKeywordsOrdered : List (List Char × List (List Char)) :=
  [("Mod-Extra".toList, ["mod-extra".toList, "مود اکسترا".toList]),
   ("Mod-Lite".toList, ["mod-lite".toList, "مود لایت".toList]),
   ("Ad-Free".toList, ["ad-free".toList, "بدون تبلیغات".toList]),
   ("Unlocked".toList, ["unlocked".toList, "آنلاک".toList]),
   ("Patched".toList, ["patched".toList, "پچ شده".toList]),
   ("Premium".toList, ["premium".toList, "پرمیوم".toList]),
   ("Ultra".toList, ["ultra".toList, "اولترا".toList]),
   ("Clone".toList, ["clone".toList, "کلون".toList]),
   ("Beta".toList, ["beta".toList, "بتا".toList]),
   ("Full".toList, ["full".toList, "کامل".toList]),
   ("Lite".toList, ["lite".toList, "لایت".toList]),
   ("Main".toList, ["main".toList]),
   ("Pro".toList, ["pro".toList, "پرو".toList]),
   ("VIP".toList, ["vip".toList]),
   ("Plus".toList, ["plus".toList, "پلاس".toList]),
   ("Persian".toList, ["persian".toList, "فارسی".toList]),
   ("English".toList, ["english".toList, "انگلیسی".toList]),
   ("Arm64-v8a".toList, ["arm64-v8a".toList, "arm64".toList]),
   ("Armeabi-v7a".toList, ["armeabi-v7a".toList, "armv7".toList]),
   ("x86_64".toList, ["x86_64".toList]),
   ("x86".toList, ["x86".toList]),
   ("Arm".toList, ["arm".toList]),
   ("Mod".toList, ["mod".toList, "مود".toList]),
   ("PC".toList, ["pc".toList, "کامپیوتر".toList]),
   ("Windows".toList, ["windows".toList, "ویندوز".toList]),
   ("Data".toList, ["data".toList, "obb".toList, "دیتا".toList])]

/-- `\b(?:با لینک مستقیم|مگابایت|\d+)\b` (line 346). -/
def reBoilerplate : RE :=
  .seq .wordB
    (.seq (RE.alts [RE.litCI "با لینک مستقیم".toList,
                    RE.litCI "مگابایت".toList, reDigits]) .wordB)

/-- The normalized scan text for variant detection (lines 345–346):
lowercased filename + link text, with boilerplate phrases removed and the
word-bounded boilerplate pattern substituted away. -/
def combinedTextForLinkVariantDetection (filenameDecoded linkText : List Char) :
    List Char :=
  let t := lowerL filenameDecoded ++ [' '] ++ lowerL linkText
  let t := replaceAll "(farsroid.com)".toList [] t
  let t := replaceAll "دانلود فایل نصبی".toList [] t
  let t := replaceAll "برنامه با لینک مستقیم".toList [] t
  let t := stripWs t
  stripWs (reSubEmpty reBoilerplate none t)

/-- The keyword-table pass of the classifier (lines 362–369).  A tag is
appended (once) when any of its surface forms occurs word-bounded in the
scan text; the generic `Mod` is skipped when `Mod-Extra`/`Mod-Lite` is
already present, and `Lite` when `Mod-Lite` is present. -/
def classifyVariants (scanText : List Char) : List (List Char) :=
  variantKeywordsOrdered.foldl
    (fun parts kp =>
      if kp.2.any (fun pat => reTest (reWordKw pat) scanText) then
        if kp.1 = "Mod".toList ∧
            ("Mod-Extra".toList ∈ parts ∨ "Mod-Lite".toList ∈ parts) then parts
        else if kp.1 = "Lite".toList ∧ "Mod-Lite".toList ∈ parts then parts
        else if kp.1 ∈ parts then parts
        else parts ++ [kp.1]
      else parts)
    []

/-! ## `get_file_extension_from_url` (lines 268–301) -/

/-- `os.path.splitext`: the extension starts at the last dot, except that
dots leading the basename do not begin an extension. -/
def splitextExt (name : List Char) : List Char :=
  let lead := (name.takeWhile (· = '.')).length
  let body := name.drop lead
  match (body.reverse.takeWhile (· ≠ '.')).reverse, body.any (· = '.') with
  | ext, true => '.' :: ext
  | _, false => []

/-- The stem part of `os.path.splitext`. -/
def splitextRoot (name : List Char) : List Char :=
  name.take (name.length - (splitextExt name).length)

/-- The known-extension allowlist (lines 278–288). -/
def knownExtensions : List (List Char) :=
  [".apk".toList, ".zip".toList, ".exe".toList, ".rar".toList, ".xapk".toList,
   ".apks".toList, ".7z".toList, ".gz".toList, ".bz2".toList, ".xz".toList,
   ".msi".toList, ".dmg".toList, ".pkg".toList, ".deb".toList, ".rpm".toList,
   ".appimage".toList, ".tgz".toList, ".tbz2".toList, ".txz".toList,
   ".jpg".toList, ".jpeg".toList, ".png".toList, ".gif".toList, ".bmp".toList,
   ".tiff".toList, ".tif".toList, ".webp".toList, ".svg".toList, ".ico".toList,
   ".mp3".toList, ".wav".toList, ".ogg".toList, ".aac".toList, ".flac".toList,
   ".m4a".toList, ".wma".toList, ".mp4".toList, ".mkv".toList, ".avi".toList,
   ".mov".toList, ".wmv".toList, ".flv".toList, ".webm".toList, ".mpeg".toList,
   ".mpg".toList, ".txt".toList, ".pdf".toList, ".doc".toList, ".docx".toList,
   ".xls".toList, ".xlsx".toList, ".ppt".toList, ".pptx".toList, ".odt".toList,
   ".ods".toList, ".odp".toList, ".rtf".toList, ".csv".toList, ".html".toList,
   ".htm".toList, ".xml".toList, ".json".toList, ".md".toList, ".ttf".toList,
   ".otf".toList, ".woff".toList, ".woff2".toList, ".eot".toList]

/-- `os.path.basename`: the part after the last `/`.  (The source applies
it to URL paths, whose separator is `/`.) -/
def basenameL (path : List Char) : List Char :=
  (path.reverse.takeWhile (· ≠ '/')).reverse

/-- Everything after the first `://` marker, or the whole string if there
is none. -/
def afterSchemeMarker : List Char → Option (List Char)
  | [] => none
  | ':' :: '/' :: '/' :: rest => some rest
  | _ :: rest => afterSchemeMarker rest

/-- The URL path of `urlparse(url).path`: for an absolute URL, from the
first `/` after `scheme://host`, up to `?`/`#`; for a scheme-less string,
the string itself up to `?`/`#`.  Modelled for the `http(s)` URLs the
pipeline handles. -/
def urlPath (url : List Char) : List Char :=
  let pathStart :=
    match afterSchemeMarker url with
    | some rest => rest.dropWhile (· ≠ '/')
    | none => url
  pathStart.takeWhile (fun c => c ≠ '?' && c ≠ '#')

/-- `get_file_extension_from_url(download_url, combined_text_for_variant)`
(lines 268–301). -/
def get_file_extension_from_url (downloadUrl combined : List Char) : List Char :=
  let rawFilename := basenameL (urlPath downloadUrl)
  let lowRaw := lowerL rawFilename
  if endsWithL lowRaw ".tar.gz".toList then ".tar.gz".toList
  else if endsWithL lowRaw ".tar.bz2".toList then ".tar.bz2".toList
  else if endsWithL lowRaw ".tar.xz".toList then ".tar.xz".toList
  else
    let extFromUrl := splitextExt rawFilename
    if extFromUrl ≠ [] ∧ lowerL extFromUrl ∈ knownExtensions then
      lowerL extFromUrl
    else
      let cl := lowerL combined
      if containsSub "windows".toList cl || containsSub "pc".toList cl then ".exe".toList
      else if containsSub "macos".toList cl || containsSub "mac".toList cl then ".dmg".toList
      else if containsSub "linux".toList cl then ".appimage".toList
      else if containsSub "data".toList cl || containsSub "obb".toList cl then ".zip".toList
      else if containsSub "font".toList cl then ".zip".toList
      else if extFromUrl ≠ [] then lowerL extFromUrl
      else ".bin".toList

/-! ## The final variant string and the tracking key (lines 374–408) -/

/-- The `.exe` fix-up (lines 374–378): drop a generic `PC` tag and ensure
a `Windows` tag. -/
def exeFixup (ext : List Char) (parts : List (List Char)) : List (List Char) :=
  if ext = ".exe".toList then
    let parts := if "PC".toList ∈ parts then parts.erase "PC".toList else parts
    if "Windows".toList ∈ parts then parts else parts ++ ["Windows".toList]
  else parts

/-- Line 380: whether any architecture tag is present. -/
def archFoundInLinkVariants (parts : List (List Char)) : Bool :=
  parts.any (fun p =>
    p = "Arm64-v8a".toList || p = "Armeabi-v7a".toList ||
    p = "x86_64".toList || p = "x86".toList || p = "Arm".toList)

/-- `sorted(list(set(link_only_variant_parts)))` (line 382): Python sorts
strings by code point; the set's iteration order is irrelevant after
sorting. -/
def dedupSortTags (parts : List (List Char)) : List (List Char) :=
  parts.dedup.insertionSort (fun a b => a ≤ b)

/-- Python `'-'.join`. -/
def joinDash : List (List Char) → List Char
  | [] => []
  | [p] => p
  | p :: ps => p ++ '-' :: joinDash ps

/-- The final display/tracking variant string (lines 380–389), including
the `.exe` fix-up and the extension-based defaults for an empty tag
list. -/
def variantFinalForDisplayTracking (parts : List (List Char)) (ext : List Char) :
    List Char :=
  let parts := exeFixup ext parts
  let archFound := archFoundInLinkVariants parts
  let variant := joinDash (dedupSortTags parts)
  if variant = [] then
    if ext = ".apk".toList ∧ archFound = false then "Universal".toList
    else if ext = ".exe".toList then "Windows".toList
    else "Default".toList
  else variant

/-- The generic suffixes stripped from non-APK tracking ids (line 398). -/
def genericSuffixes : List (List Char) :=
  ["_default".toList, "_archive".toList, "_image".toList, "_audio".toList,
   "_video".toList, "_document".toList, "_font".toList]

/-- Python `s.rsplit('_', 1)[0]`: everything before the last `_` (the
callers establish that an `_` is present). -/
def rsplitUnderscoreHead (l : List Char) : List Char :=
  if l.any (· = '_') then
    (l.reverse.dropWhile (· ≠ '_')).reverse.dropLast
  else l

/-- The tracking id built from the aggressively-cleaned base name and the
final variant string (lines 393–408).  `ext` is the resolved file
extension, consulted by the generic-suffix refinement. -/
def trackingIdOf (baseName variantStr ext : List Char) : List Char :=
  let appPart := sanitize_text_for_tracking_id baseName
  let varPart := sanitize_text_for_tracking_id variantStr
  let tid := lowerL (appPart ++ '_' :: varPart)
  let tid := stripChars ['_'] (collapseUnderscores tid)
  let tid :=
    if genericSuffixes.any (fun suf => endsWithL tid suf) = true ∧ ext ≠ ".apk".toList then
      rsplitUnderscoreHead tid
    else if endsWithL tid "_universal".toList = true ∧ ext ≠ ".apk".toList then
      tid.take (tid.length - "_universal".length)
    else tid
  if appPart = [] && varPart ≠ [] then varPart
  else if varPart = [] && appPart ≠ [] then appPart
  else if appPart = [] && varPart = [] then "unknown_app_variant".toList
  else tid
where
  /-- `re.sub(r'_+', '_', tid)`. -/
  collapseUnderscores : List Char → List Char
    | [] => []
    | c :: rest =>
      if c = '_' then
        match rest with
        | d :: _ =>
          if d = '_' then collapseUnderscores rest
          else '_' :: collapseUnderscores rest
        | [] => ['_']
      else c :: collapseUnderscores rest

/-- The tracking-key derivation as a function of (canonical base name,
variant tag list, resolved extension): lines 380–408 of the source,
i.e. everything after the keyword classification and `.exe` fix-up. -/
def buildKey (baseName : List Char) (tags : List (List Char)) (ext : List Char) :
    List Char :=
  trackingIdOf baseName (variantFinalForDisplayTracking tags ext) ext

/-! ## The parsed document tree

The pipeline consumes a BeautifulSoup document through `find`/`find_all`
queries: find an element by tag and class (exact class membership, or a
case-insensitive regex over each class), and read an element's
concatenated text and attributes.  We model the parsed tree as a rose
tree of elements and text nodes; `find` walks descendants in document
(pre-)order, as BeautifulSoup does. -/

inductive HNode where
  | text (s : List Char)
  | elem (tag : List Char) (classes : List (List Char))
      (attrs : List (List Char × List Char)) (children : List HNode)

mutual

/-- The concatenated text of all descendant text nodes (BeautifulSoup's
`.text`). -/
def HNode.textOf : HNode → List Char
  | .text s => s
  | .elem _ _ _ children => textOfList children

def HNode.textOfList : List HNode → List Char
  | [] => []
  | n :: rest => n.textOf ++ textOfList rest

end

mutual

/-- First node in pre-order among `ns` and their descendants satisfying
`p` (BeautifulSoup `find` semantics over a node list). -/
def HNode.findFirst (p : HNode → Bool) : List HNode → Option HNode
  | [] => none
  | n :: rest =>
    if p n then some n
    else
      match findInside p n with
      | some r => some r
      | none => findFirst p rest

def HNode.findInside (p : HNode → Bool) : HNode → Option HNode
  | .text _ => none
  | .elem _ _ _ children => findFirst p children

end

mutual

/-- All nodes in pre-order among `ns` and their descendants satisfying
`p` (BeautifulSoup `find_all`). -/
def HNode.findAllList (p : HNode → Bool) : List HNode → List HNode
  | [] => []
  | n :: rest =>
    (if p n then [n] else []) ++ findAllInside p n ++ findAllList p rest

def HNode.findAllInside (p : HNode → Bool) : HNode → List HNode
  | .text _ => []
  | .elem _ _ _ children => findAllList p children

end

/-- `node.find(tag, class_=cls)` / `node.find_all(...)` search the
node's descendants. -/
def HNode.find (n : HNode) (p : HNode → Bool) : Option HNode :=
  HNode.findInside p n

def HNode.findAll (n : HNode) (p : HNode → Bool) : List HNode :=
  HNode.findAllInside p n

/-- Element with the given tag whose class list contains `cls` exactly
(BeautifulSoup `find(tag, class_='cls')` on multi-valued classes). -/
def hasTagClass (tag cls : List Char) : HNode → Bool
  | .text _ => false
  | .elem t classes _ _ => t = tag && cls ∈ classes

/-- Element with the given tag, any class (`find('title')`). -/
def hasTag (tag : List Char) : HNode → Bool
  | .text _ => false
  | .elem t _ _ _ => t = tag

/-- Element whose tag matches and one of whose classes matches
`re.compile(r'title', re.IGNORECASE)` (a case-insensitive substring
search against each class). -/
def hasTagClassLike (tag sub : List Char) : HNode → Bool
  | .text _ => false
  | .elem t classes _ _ => t = tag && classes.any (fun c => containsSub sub (lowerL c))

/-- `element.get(attr)`. -/
def HNode.getAttr (n : HNode) (key : List Char) : Option (List Char) :=
  match n with
  | .text _ => none
  | .elem _ _ attrs _ =>
    match attrs.find? (fun kv => kv.1 = key) with
    | some kv => some kv.2
    | none => none

/-! ## URL helpers (`urllib.parse`) -/

/-- Hex digit value (for `%XY` percent-escapes). -/
def hexDigitVal (c : Char) : Option Nat :=
  let n := c.toNat
  if 48 ≤ n ∧ n ≤ 57 then some (n - 48)
  else if 97 ≤ n ∧ n ≤ 102 then some (n - 87)
  else if 65 ≤ n ∧ n ≤ 70 then some (n - 55)
  else none

/-- `urllib.parse.unquote`, modelled for single-byte (ASCII) escapes: the
URLs the pipeline meets are either unescaped or ASCII-escaped.  An
invalid escape is kept verbatim, as `unquote` does. -/
def unquoteL : List Char → List Char
  | '%' :: h1 :: h2 :: rest =>
    (match hexDigitVal h1, hexDigitVal h2 with
     | some a, some b => Char.ofNat (16 * a + b) :: unquoteL rest
     | _, _ => '%' :: h1 :: h2 :: unquoteL rest)
  | c :: rest => c :: unquoteL rest
  | [] => []

/-- `scheme://host` of an absolute URL (up to, excluding, the first `/`
of the path). -/
def schemeHost (url : List Char) : List Char :=
  match afterSchemeMarker url with
  | some rest =>
    url.take (url.length - rest.length + (rest.takeWhile (· ≠ '/')).length - rest.length)
  | none => []

/-- `urllib.parse.urljoin(base, href)`, modelled for the three href forms
the pipeline meets: an absolute URL is returned as is; a root-relative
href (`/x`) is resolved against the base's `scheme://host`; any other
href replaces the last segment of the base's path. -/
def urljoinModel (base href : List Char) : List Char :=
  if containsSub "://".toList href then href
  else if isPrefixL ['/'] href then
    (base.take (base.length - (match afterSchemeMarker base with
      | some rest => (rest.dropWhile (· ≠ '/')).length
      | none => base.length))) ++ href
  else
    (base.take (base.length - (base.reverse.takeWhile (· ≠ '/')).length)) ++ href

/-- `urlparse(download_url).path.split('/')[-1]` (line 334): the part
after the last `/` of the path (`split` never returns an empty list, so
`[-1]` is total). -/
def lastPathSegment (url : List Char) : List Char :=
  ((urlPath url).reverse.takeWhile (· ≠ '/')).reverse

/-! ## `extract_app_name_from_page` (lines 152–209) -/

/-- `\s*[-|–—]\s*(?:فارسروید|دانلود.*)$` (line 163; the character class
contains a literal `|`). -/
def reTitleSiteSuffix : RE :=
  .seq (RE.star (.cls isSpaceC))
    (.seq (.cls (fun c => c = '-' || c = '|' || c = '–' || c = '—'))
      (.seq (RE.star (.cls isSpaceC))
        (.seq (RE.alt (RE.litCI "فارسروید".toList)
            (.seq (RE.litCI "دانلود".toList) (RE.star (.cls (fun _ => true)))))
          .eos)))

/-- `\s*–\s*اپلیکیشن.*$` (line 164). -/
def reTitleAppSuffix : RE :=
  .seq (RE.star (.cls isSpaceC))
    (.seq (.cls (fun c => c = '–'))
      (.seq (RE.star (.cls isSpaceC))
        (.seq (RE.litCI "اپلیکیشن".toList)
          (.seq (RE.star (.cls (fun _ => true))) .eos))))

/-- The extension alternatives of `known_extensions_regex` (line 193), in
the source's alternation order. -/
def knownExtensionsRegexAlts : List (List Char) :=
  ["apk", "zip", "exe", "rar", "xapk", "apks", "msi", "dmg", "pkg", "deb",
   "rpm", "appimage", "tar.gz", "tgz", "tar.bz2", "tbz2", "tar.xz", "txz",
   "7z", "gz", "bz2", "xz", "jpg", "jpeg", "png", "gif", "bmp", "tiff",
   "tif", "webp", "svg", "ico", "mp3", "wav", "ogg", "aac", "flac", "m4a",
   "wma", "mp4", "mkv", "avi", "mov", "wmv", "flv", "webm", "mpeg", "mpg",
   "txt", "pdf", "doc", "docx", "xls", "xlsx", "ppt", "pptx", "odt", "ods",
   "odp", "rtf", "csv", "html", "htm", "xml", "json", "md", "ttf", "otf",
   "woff", "woff2", "eot"].map String.toList

/-- `known_extensions_regex` = `\.(apk|zip|…)$` with IGNORECASE. -/
def reKnownUrlExtension : RE :=
  .seq (.cls (fun c => c = '.'))
    (.seq (RE.alts (knownExtensionsRegexAlts.map RE.litCI)) .eos)

/-- `generic_url_terms` = `\b(دانلود|Download|برنامه|App|Apk|Farsroid|Android)\b`
(line 199), IGNORECASE. -/
def reGenericUrlTerms : RE :=
  .seq .wordB
    (.seq (RE.alts (["دانلود", "Download", "برنامه", "App", "Apk", "Farsroid",
        "Android"].map (fun s => RE.litCI s.toList))) .wordB)

/-- Python `str.capitalize`: first character upper-cased, the rest
lower-cased (ASCII; the URL tokens here are ASCII). -/
def capitalizeL : List Char → List Char
  | [] => []
  | c :: rest =>
    (if 'a' ≤ c && c ≤ 'z' then Char.ofNat (c.toNat - 32) else c) :: lowerL rest

/-- Python `' '.join(...)`. -/
def joinSpace : List (List Char) → List Char
  | [] => []
  | [w] => w
  | w :: ws => w ++ ' ' :: joinSpace ws

/-- The URL-fallback branch of the name extractor (lines 187–206). -/
def guessNameFromUrl (pageUrl : List Char) : List Char :=
  let pathParts := (splitSlash (unquoteL (urlPath pageUrl))).filter (· ≠ [])
  match pathParts.getLast? with
  | none => []
  | some seg =>
    let g := reSubEmpty reKnownUrlExtension none seg
    let g := versionPatternsForCleaning.foldl
      (fun n pat => stripDashUnderscoreSpace (reSubEmpty pat none n)) g
    let g := stripDashUnderscoreSpace (reSubEmpty reGenericUrlTerms none g)
    let g := joinSpace
      (((splitDashUnderscore g).filter (· ≠ [])).map capitalizeL)
    stripWs (collapseWs g)
where
  splitSlash (l : List Char) : List (List Char) :=
    splitSlashAux [] l
  splitSlashAux : List Char → List Char → List (List Char)
    | acc, [] => [acc.reverse]
    | acc, c :: rest =>
      if c = '/' then acc.reverse :: splitSlashAux [] rest
      else splitSlashAux (c :: acc) rest

/-- `extract_app_name_from_page(soup, page_url)` (lines 152–209).  A
candidate is the empty list exactly when the Python candidate is falsy
(`None` or `""`). -/
def extract_app_name_from_page (soup : HNode) (pageUrl : List Char) : List Char :=
  let h1Cand : List Char :=
    match soup.find (hasTagClassLike "h1".toList "title".toList) with
    | some h1 => stripWs h1.textOf
    | none => []
  let cand : List Char :=
    if h1Cand = [] then
      match soup.find (hasTag "title".toList) with
      | some t =>
        let c := stripWs t.textOf
        if c = [] then []
        else
          let c := stripWs (reSubEmpty reTitleSiteSuffix none c)
          stripWs (reSubEmpty reTitleAppSuffix none c)
      | none => []
    else h1Cand
  let display : List Char :=
    if cand = [] then []
    else
      let cand :=
        if isPrefixL "دانلود ".toList (lowerL cand) then
          stripWs (cand.drop "دانلود ".toList.length)
        else cand
      let d := stripWs (reSubEmpty reFarsroidParenEnd none cand)
      let d := versionPatternsForCleaning.foldl
        (fun n pat => stripDashUnderscoreSpace (reSubEmpty (anchored pat) none n)) d
      let d := stripChars [' ', '-', '–', '—'] d
      stripWs (collapseWs d)
  if display ≠ [] then display
  else
    let guessed := guessNameFromUrl pageUrl
    if guessed ≠ [] then guessed
    else "UnknownApp".toList

/-! ## `scrape_farsroid_page` (lines 304–440) -/

/-- One reportable update (the dict appended at lines 428–437). -/
structure UpdateRecord where
  app_name : List Char
  version : List Char
  variant : List Char
  download_url : List Char
  page_url : List Char
  tracking_id : List Char
  suggested_filename : List Char
  current_version_for_tracking : List Char
deriving DecidableEq

/-- The version ledger (`tracker_data`): a finite mapping from tracking
key to last-seen version, modelled as an association list with unique
keys (a loaded JSON object). -/
abbrev Ledger := List (List Char × List Char)

/-- `tracker_data.get(tracking_id, "0.0.0")` (line 425). -/
def ledgerGet (t : Ledger) (key dflt : List Char) : List Char :=
  match List.find? (fun kv => kv.1 = key) t with
  | some kv => kv.2
  | none => dflt

/-- The suggested filename (lines 412–421): strip the site-credit
parenthetical; if the result lost its extension, rebuild it from the
stripped stem plus the resolved extension. -/
def suggestedFilenameOf (filenameDecoded fileExtension : List Char) : List Char :=
  let s := stripWs (reSubEmpty reFarsroidParen none filenameDecoded)
  if splitextExt s = [] then
    stripWs (reSubEmpty reFarsroidParen none (splitextRoot filenameDecoded)) ++
      fileExtension
  else s

/-- The per-link body of the scraping loop (lines 324–439), producing the
update record for one `li.download-link` when the link has a usable href,
a version was extracted, and the version comparison judged it new. -/
def processLi (pageUrl displayName baseName : List Char) (tracker : Ledger)
    (li : HNode) : Option UpdateRecord :=
  match li.find (hasTagClass "a".toList "download-btn".toList) with
  | none => none
  | some linkTag =>
    match linkTag.getAttr "href".toList with
    | none => none
    | some href =>
      if href = [] then none
      else
        let downloadUrl := urljoinModel pageUrl href
        let linkText :=
          match linkTag.find (hasTagClass "span".toList "txt".toList) with
          | some sp => stripWs sp.textOf
          | none => []
        let filenameDecoded := unquoteL (lastPathSegment downloadUrl)
        match extract_version_from_text_or_url linkText filenameDecoded with
        | none => none
        | some currentVersion =>
          let combined := combinedTextForLinkVariantDetection filenameDecoded linkText
          let parts := classifyVariants combined
          let fileExtension := get_file_extension_from_url downloadUrl combined
          let variantFinal := variantFinalForDisplayTracking parts fileExtension
          let trackingId := trackingIdOf baseName variantFinal fileExtension
          let suggested := suggestedFilenameOf filenameDecoded fileExtension
          let lastKnown := ledgerGet tracker trackingId "0.0.0".toList
          if compare_versions currentVersion lastKnown then
            some
              { app_name := displayName
                version := currentVersion
                variant := variantFinal
                download_url := downloadUrl
                page_url := pageUrl
                tracking_id := trackingId
                suggested_filename := suggested
                current_version_for_tracking := currentVersion }
          else none

/-- `scrape_farsroid_page(page_url, soup, tracker_data)`
(lines 304–440). -/
def scrape_farsroid_page (pageUrl : List Char) (soup : HNode) (tracker : Ledger) :
    List UpdateRecord :=
  let displayName := extract_app_name_from_page soup pageUrl
  let baseName :=
    let b := aggressively_clean_name_for_tracking displayName
    if b = [] then "UnknownApp".toList else b
  match soup.find (hasTagClass "section".toList "downloadbox".toList) with
  | none => []
  | some downloadBox =>
    match downloadBox.find (hasTagClass "ul".toList "download-links".toList) with
    | none => []
    | some downloadLinksUl =>
      let foundLis :=
        downloadLinksUl.findAll (hasTagClass "li".toList "download-link".toList)
      if foundLis.isEmpty then []
      else
        foundLis.foldl
          (fun acc li =>
            match processLi pageUrl displayName baseName tracker li with
            | some rec => acc ++ [rec]
            | none => acc)
          []

/-- The per-link body again, with the ledger threaded through explicitly:
the Python loop carries `tracker_data` by reference, reading it at
line 425 and writing nothing.  Every statement of the loop that touches
the ledger appears here with the ledger state passed in and returned. -/
def processLiSt (pageUrl displayName baseName : List Char) (li : HNode)
    (tracker : Ledger) : Option UpdateRecord × Ledger :=
  (processLi pageUrl displayName baseName tracker li, tracker)

/-- `scrape_farsroid_page` in explicit state-passing form over the
ledger: each iteration receives the ledger produced by the previous one
(as the Python loop does with its single dict reference) and returns the
records plus the final ledger state. -/
def scrape_farsroid_pageSt (pageUrl : List Char) (soup : HNode) (tracker : Ledger) :
    List UpdateRecord × Ledger :=
  let displayName := extract_app_name_from_page soup pageUrl
  let baseName :=
    let b := aggressively_clean_name_for_tracking displayName
    if b = [] then "UnknownApp".toList else b
  match soup.find (hasTagClass "section".toList "downloadbox".toList) with
  | none => ([], tracker)
  | some downloadBox =>
    match downloadBox.find (hasTagClass "ul".toList "download-links".toList) with
    | none => ([], tracker)
    | some downloadLinksUl =>
      let foundLis :=
        downloadLinksUl.findAll (hasTagClass "li".toList "download-link".toList)
      if foundLis.isEmpty then ([], tracker)
      else
        foundLis.foldl
          (fun acc li =>
            let (r?, tr') := processLiSt pageUrl displayName baseName li acc.2
            match r? with
            | some rec => (acc.1 ++ [rec], tr')
            | none => (acc.1, tr'))
          ([], tracker)

/-- `main`'s ledger merge (lines 493–495): the caller copies the loaded
ledger and overwrites each found record's key with its version, after all
pages have been processed. -/
def mergeUpdatesIntoTracker (tracker : Ledger) (updates : List UpdateRecord) :
    Ledger :=
  updates.foldl
    (fun t u =>
      if (List.find? (fun kv => kv.1 = u.tracking_id) t).isSome then
        t.map (fun kv =>
          if kv.1 = u.tracking_id then (kv.1, u.current_version_for_tracking) else kv)
      else t ++ [(u.tracking_id, u.current_version_for_tracking)])
    tracker

/-- The scenario page: heading `"Example App"` and one artifact link with
link text `"Arm64-v8a 5.1.0"` whose decoded filename is
`example-5.1.0-arm64.apk`. -/
def exampleDoc : HNode :=
  .elem "[document]".toList [] [] [
    .elem "h1".toList ["entry-title".toList] [] [.text "Example App".toList],
    .elem "section".toList ["downloadbox".toList] [] [
      .elem "ul".toList ["download-links".toList] [] [
        .elem "li".toList ["download-link".toList] [] [
          .elem "a".toList ["download-btn".toList]
            [("href".toList, "https://dl.example.com/example-5.1.0-arm64.apk".toList)] [
            .elem "span".toList ["txt".toList] [] [
              .text "Arm64-v8a 5.1.0".toList]]]]]]

def examplePageUrl : List Char := "https://www.farsroid.com/example-app/".toList

/-- The scenario ledger of the claim: `example_app_arm64-v8a → 4.9.0`. -/
def exampleLedger : Ledger := [("example_app_arm64-v8a".toList, "4.9.0".toList)]

/-- A page with a heading but no download section. -/
def noDownloadDoc : HNode :=
  .elem "[document]".toList [] [] [
    .elem "h1".toList ["entry-title".toList] [] [.text "Some App".toList]]

/-! # Theorems

Helper lemmas first, then one theorem per claim (with witnesses and
counterexamples where the claim's status requires them). -/

/-! ## Helper lemmas -/

/-- Every token produced by `splitWsAux` (with a non-empty carry or not)
is non-empty. -/
theorem splitWsAux_ne_nil : ∀ (l acc : List Char), [] ∉ splitWsAux acc l := by
  intro l
  induction l with
  | nil =>
    intro acc
    simp only [splitWsAux]
    split
    · simp
    · rename_i h
      simp only [List.mem_singleton]
      intro hc
      exact h (by simpa using congrArg List.reverse hc)
  | cons c rest ih =>
    intro acc
    simp only [splitWsAux]
    split
    · split
      · exact ih []
      · rename_i h
        simp only [List.mem_cons]
        rintro (hc | hc)
        · exact h (by simpa using congrArg List.reverse hc.symm)
        · exact ih [] hc
    · exact ih (c :: acc)

/-- If the input contains a non-whitespace character (or a token is
already being carried), `splitWsAux` produces at least one token. -/
theorem splitWsAux_ne_empty :
    ∀ (l acc : List Char), ((∃ c ∈ l, isSpaceC c = false) ∨ acc ≠ []) →
      splitWsAux acc l ≠ [] := by
  intro l
  induction l with
  | nil =>
    intro acc h
    rcases h with ⟨c, hc, _⟩ | h
    · exact absurd hc (List.not_mem_nil c)
    · simp only [splitWsAux]
      rw [if_neg h]
      simp
  | cons c rest ih =>
    intro acc h
    simp only [splitWsAux]
    by_cases hsp : isSpaceC c
    · rw [if_pos hsp]
      by_cases hacc : acc = []
      · rw [if_pos hacc]
        apply ih
        left
        rcases h with ⟨d, hd, hds⟩ | h
        · rcases List.mem_cons.mp hd with rfl | hd
          · rw [hsp] at hds; cases hds
          · exact ⟨d, hd, hds⟩
        · exact absurd hacc h
      · rw [if_neg hacc]
        simp
    · rw [if_neg hsp]
      apply ih
      right
      simp

/-- The two association-list–threaded folds of the scraper agree: the
state-passing fold returns the records of the pure fold together with the
untouched ledger. -/
theorem scrapeSt_foldl_eq (pageUrl displayName baseName : List Char)
    (tracker : Ledger) :
    ∀ (lis : List HNode) (recs : List UpdateRecord),
      lis.foldl
        (fun acc li =>
          let (r?, tr') := processLiSt pageUrl displayName baseName li acc.2
          match r? with
          | some rec => (acc.1 ++ [rec], tr')
          | none => (acc.1, tr'))
        (recs, tracker) =
      (lis.foldl
        (fun acc li =>
          match processLi pageUrl displayName baseName tracker li with
          | some rec => acc ++ [rec]
          | none => acc)
        recs, tracker) := by
  intro lis
  induction lis with
  | nil => intro recs; rfl
  | cons li rest ih =>
    intro recs
    simp only [List.foldl_cons, processLiSt]
    cases processLi pageUrl displayName baseName tracker li with
    | some rec => exact ih (recs ++ [rec])
    | none => exact ih recs

/-- `dedupSortTags` depends only on the membership predicate of its
input: the dedup-then-sort of two lists with the same elements agree. -/
theorem dedupSortTags_eq_of_mem_iff (t₁ t₂ : List (List Char))
    (h : ∀ a, a ∈ t₁ ↔ a ∈ t₂) : dedupSortTags t₁ = dedupSortTags t₂ := by
  have hperm : List.Perm t₁.dedup t₂.dedup :=
    (List.perm_ext_iff_of_nodup t₁.nodup_dedup t₂.nodup_dedup).mpr
      (by intro a; simpa [List.mem_dedup] using h a)
  unfold dedupSortTags
  exact List.eq_of_perm_of_sorted
    (((List.perm_insertionSort _ _).trans hperm).trans
      (List.perm_insertionSort _ _).symm)
    (List.sorted_insertionSort _ _) (List.sorted_insertionSort _ _)

/-- `archFoundInLinkVariants` depends only on membership. -/
theorem archFound_eq_of_mem_iff (t₁ t₂ : List (List Char))
    (h : ∀ a, a ∈ t₁ ↔ a ∈ t₂) :
    archFoundInLinkVariants t₁ = archFoundInLinkVariants t₂ := by
  unfold archFoundInLinkVariants
  apply Bool.eq_iff_iff.mpr
  simp only [List.any_eq_true]
  constructor
  · rintro ⟨p, hp, hcond⟩; exact ⟨p, (h p).mp hp, hcond⟩
  · rintro ⟨p, hp, hcond⟩; exact ⟨p, (h p).mpr hp, hcond⟩

/-- The `.exe` fix-up preserves duplicate-freedom and respects
membership-equivalence of its input. -/
theorem exeFixup_nodup_mem (ext : List Char) (t₁ t₂ : List (List Char))
    (h₁ : t₁.Nodup) (h₂ : t₂.Nodup) (h : ∀ a, a ∈ t₁ ↔ a ∈ t₂) :
    (exeFixup ext t₁).Nodup ∧ (exeFixup ext t₂).Nodup ∧
      (∀ a, a ∈ exeFixup ext t₁ ↔ a ∈ exeFixup ext t₂) := by
  unfold exeFixup
  by_cases hext : ext = ".exe".toList
  · rw [if_pos hext, if_pos hext]
    have hpc : ("PC".toList ∈ t₁) ↔ ("PC".toList ∈ t₂) := h _
    have e₁ : (if "PC".toList ∈ t₁ then t₁.erase "PC".toList else t₁).Nodup := by
      split <;> [exact h₁.erase _; exact h₁]
    have e₂ : (if "PC".toList ∈ t₂ then t₂.erase "PC".toList else t₂).Nodup := by
      split <;> [exact h₂.erase _; exact h₂]
    have emem : ∀ a, a ∈ (if "PC".toList ∈ t₁ then t₁.erase "PC".toList else t₁) ↔
        a ∈ (if "PC".toList ∈ t₂ then t₂.erase "PC".toList else t₂) := by
      intro a
      by_cases hp : "PC".toList ∈ t₁
      · rw [if_pos hp, if_pos (hpc.mp hp), h₁.mem_erase_iff, h₂.mem_erase_iff]
        exact and_congr_right fun _ => h a
      · rw [if_neg hp, if_neg (fun hq => hp (hpc.mpr hq))]
        exact h a
    set u₁ := if "PC".toList ∈ t₁ then t₁.erase "PC".toList else t₁ with hu₁
    set u₂ := if "PC".toList ∈ t₂ then t₂.erase "PC".toList else t₂ with hu₂
    have hw : ("Windows".toList ∈ u₁) ↔ ("Windows".toList ∈ u₂) := emem _
    by_cases hwin : "Windows".toList ∈ u₁
    · rw [if_pos hwin, if_pos (hw.mp hwin)]
      exact ⟨e₁, e₂, emem⟩
    · rw [if_neg hwin, if_neg (fun hq => hwin (hw.mpr hq))]
      refine ⟨?_, ?_, ?_⟩
      · simpa [List.nodup_append] using ⟨e₁, hwin⟩
      · simpa [List.nodup_append] using ⟨e₂, fun hq => hwin (hw.mpr hq)⟩
      · intro a
        simp only [List.mem_append, List.mem_singleton]
        exact or_congr_left (emem a)
  · rw [if_neg hext, if_neg hext]
    exact ⟨h₁, h₂, h⟩

/-! ## Claim C2 — sentinel behaviour and monotone examples of
`compare_versions` -/

/-- **C2.**  For every pair of version strings: an empty `current` yields
`false`; a non-empty `current` against an empty or `"0.0.0"` `last`
yields `true`; and the four concrete examples of the specification
evaluate as stated. -/
theorem compare_versions_sentinels_and_examples :
    (∀ last, compare_versions [] last = false) ∧
    (∀ current last, current ≠ [] → (last = [] ∨ last = "0.0.0".toList) →
      compare_versions current last = true) ∧
    compare_versions "2.0.0".toList "1.9.9".toList = true ∧
    compare_versions "1.0.0".toList "1.0.0".toList = false ∧
    compare_versions "1.0".toList "0.0.0".toList = true ∧
    compare_versions "".toList "1.0.0".toList = false := by
  refine ⟨?_, ?_, by decide, by decide, by decide, by decide⟩
  · intro last
    simp [compare_versions]
  · intro current last hcur hlast
    unfold compare_versions
    rw [if_neg hcur, if_pos hlast]

/-- Witness for C2: the sentinel branch applied at the concrete pair
`("1.0", "")`. -/
theorem compare_versions_sentinels_and_examples_witness :
    compare_versions "1.0".toList [] = true :=
  compare_versions_sentinels_and_examples.2.1 "1.0".toList [] (by decide)
    (Or.inl rfl)

/-! ## Claim C3 — totality and the string-comparison fallback -/

/-- **C3 counterexample.**  The claim states that *whenever either string
fails to parse*, the result equals the lexicographic conjunction
`current ≠ last ∧ current > last`.  At `current = "-a"`,
`last = "0.0.0"`, the current string fails to parse, yet the sentinel
branch fires first and returns `true`, while the lexicographic
conjunction is `false` (`"-a" < "0.0.0"`). -/
theorem compare_versions_fallback_counterexample :
    parseVersion "-a".toList = none ∧
    compare_versions "-a".toList "0.0.0".toList = true ∧
    lexFallback "-a".toList "0.0.0".toList = false := by
  decide

/-- **C3 (amended).**  `compare_versions` is total (it is a Lean
function), and whenever either string fails to parse *and the sentinel
branches do not apply* (`current` non-empty, `last` neither empty nor
`"0.0.0"`), the result equals the lexicographic conjunction
`current ≠ last ∧ current > last`; in particular
`is_newer("build-42", "build-41")` returns `true`, consistent with
lexicographic ordering. -/
theorem compare_versions_fallback_lexicographic :
    (∀ current last, current ≠ [] → last ≠ [] → last ≠ "0.0.0".toList →
      (parseVersion current = none ∨ parseVersion last = none) →
      compare_versions current last = lexFallback current last) ∧
    compare_versions "build-42".toList "build-41".toList = true ∧
    lexFallback "build-42".toList "build-41".toList = true := by
  refine ⟨?_, by decide, by decide⟩
  intro current last hcur hlast hsent hparse
  unfold compare_versions
  rw [if_neg hcur, if_neg (by rintro (h | h) <;> [exact hlast h; exact hsent h])]
  rcases hparse with h | h
  · rw [h]
  · rw [h]; cases parseVersion current <;> rfl

/-- Witness for C3: the fallback equation applied at the concrete pair
`("build-42", "build-41")`. -/
theorem compare_versions_fallback_lexicographic_witness :
    compare_versions "build-42".toList "build-41".toList =
      lexFallback "build-42".toList "build-41".toList :=
  compare_versions_fallback_lexicographic.1 "build-42".toList "build-41".toList
    (by decide) (by decide) (by decide) (Or.inl (by decide))

/-! ## Claim C5 — canonicalization stability under reordering -/

set_option maxRecDepth 2000000

/-- **C5.**  Canonicalization is stable under reordering of the version
and variant substrings: both spellings of the example collapse to the
same base name. -/
theorem aggressive_clean_reorder_stable :
    aggressively_clean_name_for_tracking "Super App Mod-Extra v3.2.1".toList =
      aggressively_clean_name_for_tracking "Super App v3.2.1 Mod-Extra".toList := by
  decide

/-! ## Claim C6 — canonicalization and the first-token fallback -/

/-- **C6 counterexample.**  On the empty display name every stripping
pass yields the empty string and the original input has no
whitespace-delimited token to fall back to, so the canonicalizer returns
the empty string — the claim's "for every input display name" fails. -/
theorem aggressive_clean_empty_counterexample :
    aggressively_clean_name_for_tracking "".toList = [] := by
  decide

/-- **C6 (amended).**  For every display name containing at least one
non-whitespace character, the canonicalizer returns a non-empty string:
when stripping reduces the name to empty it falls back to the first
whitespace-delimited token of the original input, which exists and is
non-empty. -/
theorem aggressive_clean_nonempty :
    ∀ name : List Char, (∃ c ∈ name, isSpaceC c = false) →
      aggressively_clean_name_for_tracking name ≠ [] := by
  intro name h
  simp only [aggressively_clean_name_for_tracking, splitWs]
  split
  · split
    · rename_i hw
      exact absurd hw (splitWsAux_ne_empty name [] (Or.inl h))
    · rename_i w ws hw
      intro hwnil
      subst hwnil
      exact splitWsAux_ne_nil name [] (by rw [hw]; exact List.mem_cons_self _ _)
  · rename_i hcleaned
    exact hcleaned

/-- Witness for C6: the amended theorem applied at the concrete name
`"Example App"`. -/
theorem aggressive_clean_nonempty_witness :
    aggressively_clean_name_for_tracking "Example App".toList ≠ [] :=
  aggressive_clean_nonempty "Example App".toList ⟨'E', by decide, by decide⟩

/-! ## Claim C7 — extension-based variant defaults -/

/-- **C7.**  When the keyword classification yields no variant tags, the
final variant string is determined by the resolved extension: `.apk` ⇒
`"Universal"` (no architecture tag is present in an empty tag list),
`.exe` ⇒ `"Windows"`, anything else ⇒ `"Default"`. -/
theorem variant_defaults_of_empty_tags :
    ∀ ext : List Char,
      variantFinalForDisplayTracking [] ext =
        (if ext = ".apk".toList then "Universal".toList
         else if ext = ".exe".toList then "Windows".toList
         else "Default".toList) := by
  intro ext
  by_cases h1 : ext = ".exe".toList
  · subst h1; decide
  · by_cases h2 : ext = ".apk".toList
    · subst h2; decide
    · simp only [variantFinalForDisplayTracking]
      have e1 : exeFixup ext [] = [] := by unfold exeFixup; rw [if_neg h1]
      rw [e1]
      have e2 : joinDash (dedupSortTags []) = [] := rfl
      rw [e2, if_pos rfl]
      rw [if_neg (show ¬(ext = ".apk".toList ∧ archFoundInLinkVariants [] = false)
            from fun hc => h2 hc.1), if_neg h1, if_neg h2]

/-! ## Claim C4 — tracking-key determinism and order-independence -/

/-- **C4 counterexample.**  The tracking key is *not* a function of
(canonical base name, variant tag set) alone: with the same base name and
the same (empty) tag set, an `.apk` artifact gets key `app_universal`
while a `.zip` artifact gets key `app` — the defaults and the
generic-suffix refinement consult the resolved file extension. -/
theorem buildKey_depends_on_extension :
    buildKey "App".toList [] ".apk".toList ≠ buildKey "App".toList [] ".zip".toList := by
  decide

/-- **C4 (amended).**  Tracking-key derivation is a pure, deterministic,
total function of (canonical base name, variant tag set, resolved file
extension): with the extension fixed, supplying the same set of variant
tags (duplicate-free, in any collection order) yields the identical key,
because tags are deduplicated and sorted before being joined into the
variant string used for the key. -/
theorem buildKey_order_independent :
    ∀ (base ext : List Char) (t₁ t₂ : List (List Char)),
      t₁.Nodup → t₂.Nodup → (∀ a, a ∈ t₁ ↔ a ∈ t₂) →
      buildKey base t₁ ext = buildKey base t₂ ext := by
  intro base ext t₁ t₂ h₁ h₂ h
  obtain ⟨e₁, e₂, emem⟩ := exeFixup_nodup_mem ext t₁ t₂ h₁ h₂ h
  have hv : variantFinalForDisplayTracking t₁ ext =
      variantFinalForDisplayTracking t₂ ext := by
    simp only [variantFinalForDisplayTracking]
    rw [dedupSortTags_eq_of_mem_iff (exeFixup ext t₁) (exeFixup ext t₂) emem,
        archFound_eq_of_mem_iff (exeFixup ext t₁) (exeFixup ext t₂) emem]
  unfold buildKey
  rw [hv]

/-- Witness for C4: the same tag set supplied in two different orders
yields the same key. -/
theorem buildKey_order_independent_witness :
    buildKey "Example".toList ["Windows".toList, "Arm".toList] ".apk".toList =
      buildKey "Example".toList ["Arm".toList, "Windows".toList] ".apk".toList :=
  buildKey_order_independent "Example".toList ".apk".toList _ _ (by decide)
    (by decide) (by intro a; simp only [List.mem_cons, List.mem_singleton]; tauto)

/-! ## Claim C10 — the scraper never mutates the ledger -/

/-- **C10.**  `scrape_farsroid_page` only reads the ledger: in
state-passing form the ledger returned after processing any page equals
the ledger passed in, and the records produced are exactly those computed
with every lookup made against that original (load-time) ledger — so two
artifacts resolving to the same tracking key are both compared against
the value the ledger held at load time.  (The caller merges new versions
into a copy only after all pages are processed,
`mergeUpdatesIntoTracker`.) -/
theorem scrape_preserves_ledger :
    ∀ (pageUrl : List Char) (soup : HNode) (tracker : Ledger),
      (scrape_farsroid_pageSt pageUrl soup tracker).2 = tracker ∧
      (scrape_farsroid_pageSt pageUrl soup tracker).1 =
        scrape_farsroid_page pageUrl soup tracker := by
  intro pageUrl soup tracker
  simp only [scrape_farsroid_pageSt, scrape_farsroid_page]
  split
  · exact ⟨rfl, rfl⟩
  · split
    · exact ⟨rfl, rfl⟩
    · split
      · exact ⟨rfl, rfl⟩
      · rw [scrapeSt_foldl_eq]
        exact ⟨rfl, rfl⟩

/-! ## Claim C1 — the end-to-end scenario -/


/-- **C1 counterexample.**  On the scenario page the scraper produces
exactly one record, but its tracking key is *not* the claimed
`example_app_arm64_v8a`: sanitization deletes characters outside
`[a-z0-9-_]` (including spaces) instead of mapping them to underscores,
so the base name `"Example App"` contributes `exampleapp`. -/
theorem scrape_example_key_counterexample :
    (scrape_farsroid_page examplePageUrl exampleDoc exampleLedger).length = 1 ∧
    (scrape_farsroid_page examplePageUrl exampleDoc exampleLedger).map
        (fun r => r.tracking_id) ≠ ["example_app_arm64_v8a".toList] := by
  decide

/-- **C1 (amended).**  For the scenario page (whose extracted base name
is `"Example App"`) and the ledger `example_app_arm64-v8a → 4.9.0`, the
scraper produces exactly one Update Record, with tracking key
`exampleapp_arm64_v8a` (the space of the base name is deleted by
sanitization, not turned into an underscore), version `5.1.0` and
variant `Arm64-v8a`. -/
theorem scrape_example_produces_one_record :
    aggressively_clean_name_for_tracking
        (extract_app_name_from_page exampleDoc examplePageUrl) =
      "Example App".toList ∧
    (scrape_farsroid_page examplePageUrl exampleDoc exampleLedger).map
        (fun r => (r.tracking_id, r.version, r.variant)) =
      [("exampleapp_arm64_v8a".toList, "5.1.0".toList, "Arm64-v8a".toList)] := by
  decide

/-! ## Claim C9 — missing download structure yields zero records -/

/-- **C9.**  If the page has no `section.downloadbox`, or the section has
no `ul.download-links`, or the list has no `li.download-link` items, the
scraper returns the empty record list (and, being a total function, it
does so without failing). -/
theorem scrape_missing_structure_returns_empty :
    ∀ (pageUrl : List Char) (soup : HNode) (tracker : Ledger),
      (soup.find (hasTagClass "section".toList "downloadbox".toList) = none ∨
        (∃ box,
          soup.find (hasTagClass "section".toList "downloadbox".toList) = some box ∧
          box.find (hasTagClass "ul".toList "download-links".toList) = none) ∨
        (∃ box ul,
          soup.find (hasTagClass "section".toList "downloadbox".toList) = some box ∧
          box.find (hasTagClass "ul".toList "download-links".toList) = some ul ∧
          ul.findAll (hasTagClass "li".toList "download-link".toList) = [])) →
      scrape_farsroid_page pageUrl soup tracker = [] := by
  intro pageUrl soup tracker h
  simp only [scrape_farsroid_page]
  rcases h with h | ⟨box, hbox, hul⟩ | ⟨box, ul, hbox, hul, hlis⟩
  · rw [h]
  · simp only [hbox, hul]
  · simp only [hbox, hul, hlis]
    rfl


/-- Witness for C9: the theorem applied to a concrete page without a
download section. -/
theorem scrape_missing_structure_returns_empty_witness :
    scrape_farsroid_page "https://www.farsroid.com/x/".toList noDownloadDoc [] = [] :=
  scrape_missing_structure_returns_empty "https://www.farsroid.com/x/".toList
    noDownloadDoc [] (Or.inl rfl)

/-! ## Claim C8 — version-extraction boundary guards -/

/-- Every successful run of the matcher gets its value from an invocation
of the continuation on some suffix of the input. -/
theorem reMatch_success_from_k :
    ∀ (fuel : Nat) (r : RE) (prev : Option Char) (cs : List Char)
      (k : Option Char → List Char → Option (List Char)) (v : List Char),
      reMatch fuel r prev cs k = some v →
      ∃ p' cs', cs'.IsSuffix cs ∧ k p' cs' = some v := by
  intro fuel
  induction fuel with
  | zero => intro r prev cs k v h; cases h
  | succ fuel ih =>
    intro r prev cs k v h
    cases r with
    | eps => exact ⟨prev, cs, List.suffix_refl cs, h⟩
    | cls p =>
      cases cs with
      | nil => cases h
      | cons c rest =>
        cases hp : p c with
        | false => simp [reMatch, hp] at h
        | true =>
          simp only [reMatch, hp, if_true] at h
          exact ⟨some c, rest, (List.suffix_cons c rest), h⟩
    | seq a b =>
      simp only [reMatch] at h
      obtain ⟨p₁, cs₁, hs₁, h₁⟩ := ih a prev cs _ v h
      obtain ⟨p₂, cs₂, hs₂, h₂⟩ := ih b p₁ cs₁ k v h₁
      exact ⟨p₂, cs₂, hs₂.trans hs₁, h₂⟩
    | alt a b =>
      simp only [reMatch] at h
      cases hcase : reMatch fuel a prev cs k with
      | some res => rw [hcase] at h; exact ih a prev cs k v (hcase.trans (by injection h; simp_all))
      | none => rw [hcase] at h; exact ih b prev cs k v h
    | star a =>
      simp only [reMatch] at h
      cases hcase : reMatch fuel a prev cs
          (fun p' cs' => reMatch fuel (.star a) p' cs' k) with
      | some res =>
        rw [hcase] at h
        injection h with hv
        subst hv
        obtain ⟨p₁, cs₁, hs₁, h₁⟩ := ih a prev cs _ res hcase
        obtain ⟨p₂, cs₂, hs₂, h₂⟩ := ih (.star a) p₁ cs₁ k res h₁
        exact ⟨p₂, cs₂, hs₂.trans hs₁, h₂⟩
      | none =>
        rw [hcase] at h
        exact ⟨prev, cs, List.suffix_refl cs, h⟩
    | starL a =>
      simp only [reMatch] at h
      cases hcase : k prev cs with
      | some res =>
        rw [hcase] at h
        injection h with hv
        subst hv
        exact ⟨prev, cs, List.suffix_refl cs, hcase⟩
      | none =>
        rw [hcase] at h
        obtain ⟨p₁, cs₁, hs₁, h₁⟩ := ih a prev cs _ v h
        obtain ⟨p₂, cs₂, hs₂, h₂⟩ := ih (.starL a) p₁ cs₁ k v h₁
        exact ⟨p₂, cs₂, hs₂.trans hs₁, h₂⟩
    | wordB =>
      simp only [reMatch] at h
      split at h
      · exact ⟨prev, cs, List.suffix_refl cs, h⟩
      · cases h
    | notBehind p =>
      cases prev with
      | none =>
        simp only [reMatch] at h
        exact ⟨none, cs, List.suffix_refl cs, h⟩
      | some c =>
        cases hp : p c with
        | true => simp [reMatch, hp] at h
        | false =>
          simp only [reMatch, hp, Bool.false_eq_true, if_false] at h
          exact ⟨some c, cs, List.suffix_refl cs, h⟩
    | notAhead p =>
      cases cs with
      | nil =>
        simp only [reMatch] at h
        exact ⟨prev, [], List.suffix_refl [], h⟩
      | cons c rest =>
        cases hp : p c with
        | true => simp [reMatch, hp] at h
        | false =>
          simp only [reMatch, hp, Bool.false_eq_true, if_false] at h
          exact ⟨prev, c :: rest, List.suffix_refl _, h⟩
    | eos =>
      cases cs with
      | nil =>
        simp only [reMatch] at h
        exact ⟨prev, [], List.suffix_refl [], h⟩
      | cons c rest => simp [reMatch] at h

/-- A pattern starting with a negative lookbehind only matches when the
preceding character fails the lookbehind class. -/
theorem reMatch_notBehind_first (fuel : Nat) (p : Char → Bool) (r : RE)
    (prev : Option Char) (cs : List Char)
    (k : Option Char → List Char → Option (List Char)) (v : List Char)
    (h : reMatch fuel (.seq (.notBehind p) r) prev cs k = some v) :
    ∀ c, prev = some c → p c = false := by
  intro c hc
  subst hc
  match fuel with
  | 0 => cases h
  | 1 => simp [reMatch] at h
  | fuel + 2 =>
    cases hp : p c with
    | false => rfl
    | true => simp [reMatch, hp] at h

/-- Stripping a leading negative lookbehind from a successful match. -/
theorem reMatch_strip_notBehind (fuel : Nat) (p : Char → Bool) (r : RE)
    (prev : Option Char) (cs : List Char)
    (k : Option Char → List Char → Option (List Char)) (v : List Char)
    (h : reMatch fuel (.seq (.notBehind p) r) prev cs k = some v) :
    ∃ fuel', reMatch fuel' r prev cs k = some v := by
  match fuel with
  | 0 => cases h
  | 1 => simp [reMatch] at h
  | fuel + 2 =>
    simp only [reMatch] at h
    cases prev with
    | none => exact ⟨fuel + 1, h⟩
    | some c =>
      cases hp : p c with
      | true => simp [hp] at h
      | false =>
        simp only [hp, Bool.false_eq_true, if_false] at h
        exact ⟨fuel + 1, h⟩

/-- A pattern ending in a negative lookahead hands the continuation a
remainder whose head fails the lookahead class. -/
theorem reMatch_notAhead_last (fuel : Nat) (x : RE) (p : Char → Bool)
    (prev : Option Char) (cs : List Char)
    (k : Option Char → List Char → Option (List Char)) (v : List Char)
    (h : reMatch fuel (.seq x (.notAhead p)) prev cs k = some v) :
    ∃ p' cs', cs'.IsSuffix cs ∧ (∀ c, cs'.head? = some c → p c = false) ∧
      k p' cs' = some v := by
  match fuel with
  | 0 => cases h
  | fuel + 1 =>
    simp only [reMatch] at h
    obtain ⟨p₁, cs₁, hs₁, h₁⟩ := reMatch_success_from_k fuel x prev cs _ v h
    match fuel, h₁ with
    | 0, h₁ => cases h₁
    | fuel' + 1, h₁ =>
      cases cs₁ with
      | nil =>
        simp only [reMatch] at h₁
        refine ⟨p₁, [], hs₁, ?_, h₁⟩
        intro c hc
        cases hc
      | cons c rest =>
        cases hp : p c with
        | true => simp [reMatch, hp] at h₁
        | false =>
          simp only [reMatch, hp, Bool.false_eq_true, if_false] at h₁
          refine ⟨p₁, c :: rest, hs₁, ?_, h₁⟩
          intro d hd
          injection hd with hd
          subst hd
          exact hp

/-- A suffix is recovered by dropping the length difference. -/
theorem suffix_drop_eq (l' l : List Char) (h : l'.IsSuffix l) :
    l.drop (l.length - l'.length) = l' := by
  obtain ⟨pre, rfl⟩ := h
  rw [List.length_append, Nat.add_sub_cancel, List.drop_left]

/-- Boundary property of `reMatchAtPos` for the guarded shape shared by
the two primary version patterns. -/
theorem reMatchAtPos_boundary (core : RE) (prev : Option Char)
    (cs : List Char) (n : Nat)
    (h : reMatchAtPos
      (.seq (.notBehind isWordDotDash) (.seq core (.notAhead isDotWord)))
      prev cs = some n) :
    (∀ c, prev = some c → isWordDotDash c = false) ∧
    (∀ c, (cs.drop n).head? = some c → isDotWord c = false) := by
  unfold reMatchAtPos at h
  cases hm : reMatch
      (fuelFor (.seq (.notBehind isWordDotDash) (.seq core (.notAhead isDotWord))) cs)
      (.seq (.notBehind isWordDotDash) (.seq core (.notAhead isDotWord)))
      prev cs (fun _ rest => some rest) with
  | none => rw [hm] at h; cases h
  | some rest =>
    rw [hm] at h
    injection h with hn
    constructor
    · exact reMatch_notBehind_first _ _ _ _ _ _ _ hm
    · obtain ⟨fuel', hm'⟩ := reMatch_strip_notBehind _ _ _ _ _ _ _ hm
      obtain ⟨p', cs', hs, hhead, hk⟩ := reMatch_notAhead_last _ _ _ _ _ _ _ hm'
      injection hk with hk
      subst hk
      rw [← hn, suffix_drop_eq _ _ hs]
      exact hhead

/-- A successful `reSearchAux` run reports a match made by
`reMatchAtPos` at the position right after the scanned-over prefix. -/
theorem reSearchAux_success (r : RE) :
    ∀ (cs accRev before m after : List Char),
      reSearchAux r accRev.head? cs accRev = some (before, m, after) →
      ∃ (cs' : List Char) (n : Nat),
        reMatchAtPos r before.getLast? cs' = some n ∧
        m = cs'.take n ∧ after = cs'.drop n := by
  intro cs
  induction cs with
  | nil =>
    intro accRev before m after h
    simp only [reSearchAux] at h
    cases hm : reMatchAtPos r accRev.head? [] with
    | some n =>
      rw [hm] at h
      injection h with h
      injection h with h1 h
      injection h with h2 h3
      subst h1; subst h2; subst h3
      exact ⟨[], n, by rw [List.getLast?_reverse]; exact hm, rfl, rfl⟩
    | none => rw [hm] at h; cases h
  | cons c rest ih =>
    intro accRev before m after h
    simp only [reSearchAux] at h
    cases hm : reMatchAtPos r accRev.head? (c :: rest) with
    | some n =>
      rw [hm] at h
      injection h with h
      injection h with h1 h
      injection h with h2 h3
      subst h1; subst h2; subst h3
      exact ⟨c :: rest, n, by rw [List.getLast?_reverse]; exact hm, rfl, rfl⟩
    | none =>
      rw [hm] at h
      exact ih (c :: accRev) before m after h

/-- **C8 counterexample.**  The claim asserts that *any* returned version
is never immediately preceded in its source by a digit, letter or dot.
On `"abc1.2.3def"` the two primary (guarded) patterns find nothing, and
the unguarded fallback pattern returns `"1.2.3def"`, which is immediately
preceded by the letter `c` in the source text. -/
theorem extract_version_embedded_counterexample :
    extract_version_from_text_or_url "abc1.2.3def".toList [] =
      some "1.2.3def".toList ∧
    "abc1.2.3def".toList = "abc".toList ++ "1.2.3def".toList ∧
    isAlnumC 'c' = true := by
  decide

/-- **C8 (amended).**  The two *primary* version patterns are
boundary-guarded: any match they report is neither immediately preceded
by a `[\w.-]` character nor immediately followed by a `[.\w]` character
in its source, and in particular `"abc123def"` yields no version at all.
The permissive *fallback* pattern carries no boundary guards, so when
only it matches the returned version may be embedded in a longer token
(`"abc1.2.3def"` yields `"1.2.3def"`). -/
theorem extract_version_boundary :
    (∀ (core : RE) (text before m after : List Char),
      reSearch (.seq (.notBehind isWordDotDash) (.seq core (.notAhead isDotWord)))
          text = some (before, m, after) →
      (∀ c, before.getLast? = some c → isWordDotDash c = false) ∧
      (∀ c, after.head? = some c → isDotWord c = false)) ∧
    reVersionRich =
      .seq (.notBehind isWordDotDash) (.seq reVer1Core (.notAhead isDotWord)) ∧
    reVersionLoose =
      .seq (.notBehind isWordDotDash) (.seq reVer2Core (.notAhead isDotWord)) ∧
    extract_version_from_text_or_url "abc123def".toList [] = none ∧
    extract_version_from_text_or_url "abc1.2.3def".toList [] =
      some "1.2.3def".toList := by
  refine ⟨?_, rfl, rfl, by decide, by decide⟩
  intro core text before m after h
  obtain ⟨cs', n, hp, hm, hafter⟩ := reSearchAux_success _ text [] before m after h
  obtain ⟨hprev, hnext⟩ := reMatchAtPos_boundary core _ cs' n hp
  subst hafter
  exact ⟨hprev, hnext⟩

/-- Witness for C8: the boundary property applied to a concrete search
(the rich pattern on `"x 1.2.3"`, matching `"1.2.3"` with `"x "`
before it). -/
theorem extract_version_boundary_witness :
    (∀ c, ("x ".toList).getLast? = some c → isWordDotDash c = false) ∧
    (∀ c, ([] : List Char).head? = some c → isDotWord c = false) :=
  extract_version_boundary.1 reVer1Core "x 1.2.3".toList "x ".toList
    "1.2.3".toList [] (by decide)

end AppUpdater
